import Mathlib

/-!
Verification development for the Whillans stick-slip catalog pipeline
(`src/Catalog/Catalog.py`).  The Python data frames are embedded with
exact rationals for times and numeric values; a missing value (NaN) is
`Option.none`.  Machine floats are modelled as exact rationals; every
concrete scenario below stays inside values where the float computation
is exact.
-/

namespace Whillans

/-! ### Option-valued (NaN-propagating) arithmetic -/

/-- Subtraction propagating the missing marker, as IEEE NaN does. -/
def optSub (a b : Option ℚ) : Option ℚ :=
  match a, b with
  | some x, some y => some (x - y)
  | _, _ => none

/-! ### Linear interpolation of columns (pandas `interpolate(method="linear")`)

`firstSome l` returns the offset and value of the first present entry of
`l`.  `interpFull` is the unlimited linear pass used by
`Datastream.interpolate`; `interp1` is the `limit=1` forward pass used on
the la09 columns in `Picks.merge`.  Values are interpolated by index
position (pandas method `linear` ignores the index); a missing run with
no later present value is filled from the last present value, and a
leading missing run stays missing, matching pandas with the default
forward limit direction. -/

def firstSome : List (Option ℚ) → Option (ℕ × ℚ)
  | [] => none
  | none :: rest => (firstSome rest).map (fun p => (p.1 + 1, p.2))
  | some w :: _ => some (0, w)

/-- Value at index `i` of the unlimited linear interpolation pass. -/
def interpFullAt (l : List (Option ℚ)) (i : ℕ) : Option ℚ :=
  match l.getD i none with
  | some v => some v
  | none =>
    match firstSome (l.take i).reverse with
    | none => none
    | some (b, v) =>
      match firstSome (l.drop (i + 1)) with
      | some (o, w) => some (v + (w - v) * ((b : ℚ) + 1) / ((b : ℚ) + 1 + (o : ℚ) + 1))
      | none => some v

/-- Unlimited linear interpolation of a whole column. -/
def interpFull (l : List (Option ℚ)) : List (Option ℚ) :=
  (List.range l.length).map (interpFullAt l)

/-- Value at index `i` of the `limit=1` forward linear interpolation: only
the first missing entry of each missing run (one with a present
predecessor) is filled. -/
def interp1At (l : List (Option ℚ)) (i : ℕ) : Option ℚ :=
  match l.getD i none with
  | some v => some v
  | none =>
    if i = 0 then none
    else
      match l.getD (i - 1) none with
      | none => none
      | some v =>
        match firstSome (l.drop (i + 1)) with
        | some (o, w) => some (v + (w - v) / ((o : ℚ) + 2))
        | none => some v

/-- The `limit=1` linear interpolation of a whole column
(`Series.interpolate(method="linear", limit=1)`). -/
def interp1 (l : List (Option ℚ)) : List (Option ℚ) :=
  (List.range l.length).map (interp1At l)

/-! ### Datastream: gap finding and interpolation (`Datastream.findgaps`)

A station frame is column oriented: the `time` column, which never holds
a missing value, plus the numeric columns (x, y, elevation, ...). -/

structure SFrame where
  times : List ℚ
  cols : List (List (Option ℚ))
deriving DecidableEq

/-- Embedding of `Datastream.interpolate(prior_date, date, gap, i,
interpolate_elements)`: insert `ie - 1` rows at position `i` whose times
are evenly spaced strictly between `priorT` and `dateT`
(`pd.date_range(prior, date, periods=ie+1)[1:-1]`), all numeric entries
missing, then run one unlimited linear interpolation pass over every
column of the whole frame.  Exactly as in the source, the frame operated
on is `self.data`, passed here as `F`. -/
def interpolate (F : SFrame) (priorT dateT : ℚ) (i ie : ℕ) : SFrame :=
  { times := F.times.take i ++
      ((List.range (ie - 1)).map (fun j => priorT + ((j : ℚ) + 1) * (dateT - priorT) / (ie : ℚ))) ++
      F.times.drop i,
    cols := F.cols.map (fun c =>
      interpFull (c.take i ++ List.replicate (ie - 1) none ++ c.drop i)) }

structure GapResult where
  frame : SFrame
  starts : List ℚ
  ends : List ℚ
  gaps : List ℚ
deriving DecidableEq

structure FGState where
  lastInterp : Option SFrame
  starts : List ℚ
  ends : List ℚ
  gaps : List ℚ

/-- Embedding of `Datastream.findgaps(max_gap_len)`.  Faithful to the
source: the loop reads times from the original frame only, each call to
`interpolate` starts again from the original (`self.data` is not updated
inside the loop), and after the loop `self.data` becomes the result of
the last `interpolate` call, if any. -/
def findgaps (interpTime maxGapLen : ℚ) (F : SFrame) : GapResult :=
  let st := (List.range F.times.length).foldl
    (fun (st : FGState) i =>
      if 1 ≤ i then
        let priorT := F.times.getD (i - 1) 0
        let dateT := F.times.getD i 0
        if dateT - priorT > interpTime + 1 then
          let gap := dateT - priorT
          if gap ≤ maxGapLen then
            let newData := interpolate F priorT dateT i (Int.toNat ⌊gap / interpTime⌋)
            { st with lastInterp := some newData }
          else
            { st with starts := st.starts ++ [dateT], ends := st.ends ++ [priorT],
                      gaps := st.gaps ++ [gap] }
        else st
      else st)
    { lastInterp := none, starts := [F.times.getD 0 0], ends := [], gaps := [] }
  { frame := st.lastInterp.getD F,
    starts := st.starts,
    ends := st.ends ++ [F.times.getD (F.times.length - 1) 0],
    gaps := st.gaps }

/-! ### lls_detection parameter handling (`Picks.lls_detection`)

Inside the station loop the source reassigns the loop-carried variables:
`increment = int(increment // dividing_factor)` and likewise for
`slide`, with `dividing_factor = sta.interpolation_time // 15`; then
`inc_slide = int(increment // slide)` (a ZeroDivisionError if the
normalized slide is 0) and the divisibility check raising
"Increment / Slide not an Integer". -/

def rateFactor (interval : ℕ) : ℕ := interval / 15

/-- Per-station normalization of `increment` and `slide`
(`int(increment // dividing_factor)`, `int(slide // dividing_factor)`);
a zero dividing factor raises a ZeroDivisionError in Python. -/
def llsNormalize (inc slide interval : ℕ) : Except String (ℕ × ℕ) :=
  if rateFactor interval = 0 then .error "ZeroDivisionError"
  else .ok (inc / rateFactor interval, slide / rateFactor interval)

/-- The `inc_slide` computation followed by the divisibility check, on
already-normalized values.  `int(increment // slide)` raises a
ZeroDivisionError when `slide = 0`, before the modulo check is reached. -/
def llsCheck (inc slide : ℕ) : Except String Unit :=
  if slide = 0 then .error "ZeroDivisionError"
  else if inc % slide ≠ 0 then .error "Increment / Slide not an Integer"
  else .ok ()

/-- Effective `(increment, slide)` pairs used per station by
`Picks.lls_detection`, given the stations interpolation intervals in loop
order.  The normalized values are carried into the next iteration, as in
the source. -/
def llsParams : List ℕ → ℕ → ℕ → Except String (List (ℕ × ℕ))
  | [], _, _ => .ok []
  | interval :: rest, inc, slide => do
    let p ← llsNormalize inc slide interval
    let _ ← llsCheck p.1 p.2
    let tail ← llsParams rest p.1 p.2
    .ok (p :: tail)

/-! ### Picks.merge (StreamMerger)

The merged table is row oriented: a list of column names (the `time`
join key is kept apart, it never holds a missing value) and rows pairing
a timestamp with the values of all named columns.  Each station
contributes the four columns `<name>x`, `<name>y`, `<name>res`,
`<name>res_avg`, in station order, exactly as the per-station data frame
built in `Picks.merge`. -/

deriving instance DecidableEq for Except

structure MRow where
  time : ℚ
  vals : List (Option ℚ)
deriving DecidableEq

structure MFrame where
  names : List String
  rows : List MRow
deriving DecidableEq

/-- A station after `lls_detection`: run-concatenated times and value
columns, as chained by `itertools.chain.from_iterable` in
`Picks.merge`. -/
structure Station where
  name : String
  times : List ℚ
  xs : List (Option ℚ)
  ys : List (Option ℚ)
  res : List (Option ℚ)
  resAvg : List (Option ℚ)

def dSta : Station := ⟨"", [], [], [], [], []⟩

def dRow : MRow := ⟨0, []⟩

def stationCols (s : Station) : List String :=
  [s.name ++ "x", s.name ++ "y", s.name ++ "res", s.name ++ "res_avg"]

/-- The per-station data frame built inside `Picks.merge`. -/
def stationFrame (s : Station) : MFrame :=
  { names := stationCols s,
    rows := (List.range s.times.length).map (fun k =>
      { time := s.times.getD k 0,
        vals := [s.xs.getD k none, s.ys.getD k none, s.res.getD k none, s.resAvg.getD k none] }) }

/-- One step of `pd.merge(merged, df, how="outer", on="time")`: every
left row keeps its values and is completed with the matching right row
(or missing markers), then the right rows whose timestamp appears
nowhere on the left follow, padded with missing markers on the left
columns.  This is the pandas outer merge whenever the right frame has no
duplicate timestamps, which holds for every use below. -/
def joinTwo (A B : MFrame) : MFrame :=
  { names := A.names ++ B.names,
    rows :=
      A.rows.map (fun r =>
        { time := r.time,
          vals := r.vals ++
            (match B.rows.find? (fun s => decide (s.time = r.time)) with
             | some s => s.vals
             | none => List.replicate B.names.length none) }) ++
      (B.rows.filter (fun s => !(A.rows.any (fun r => decide (r.time = s.time))))).map
        (fun s => { time := s.time, vals := List.replicate A.names.length none ++ s.vals }) }

/-- The merge loop of `Picks.merge`, including the `assert merged is not
None` that fails on an empty station list. -/
def joinAll : List Station → Except String MFrame
  | [] => .error "AssertionError"
  | s :: rest => .ok (rest.foldl (fun acc t => joinTwo acc (stationFrame t)) (stationFrame s))

/-- Row comparison used to sort the merged frame by time, ascending. -/
def rowLe (a b : MRow) : Prop := a.time ≤ b.time

instance : DecidableRel rowLe := fun a b => inferInstanceAs (Decidable (a.time ≤ b.time))

instance : IsTotal MRow rowLe := ⟨fun a b => le_total a.time b.time⟩

instance : IsTrans MRow rowLe := ⟨fun _ _ _ h1 h2 => le_trans h1 h2⟩

/-- `merged.sort_values(by="time", ignore_index=True)`. -/
def sortFrame (F : MFrame) : MFrame :=
  { F with rows := List.insertionSort rowLe F.rows }

def getColumn (F : MFrame) (j : ℕ) : List (Option ℚ) :=
  F.rows.map (fun r => r.vals.getD j none)

/-- Column assignment `merged[c] = v` for a column of the same length as
the frame. -/
def setColumn (F : MFrame) (j : ℕ) (c : List (Option ℚ)) : MFrame :=
  { names := F.names,
    rows := (List.range F.rows.length).map (fun k =>
      let r := F.rows.getD k dRow
      { time := r.time, vals := r.vals.set j (c.getD k none) }) }

/-- `merged[cname] = merged[cname].interpolate(method="linear", limit=1)`;
reading a column name absent from the frame raises a KeyError. -/
def interpColumn (F : MFrame) (cname : String) : Except String MFrame :=
  match F.names.findIdx? (fun n => n = cname) with
  | none => .error "KeyError"
  | some j => .ok (setColumn F j (interp1 (getColumn F j)))

/-- The guarded smoothing step at the end of `Picks.merge`: the guard
tests for column `la00res`, while the columns smoothed are those of
station la09. -/
def applySmoothing (F : MFrame) : Except String MFrame :=
  if "la00res" ∈ F.names then do
    let F1 ← interpColumn F "la09res"
    let F2 ← interpColumn F1 "la09res_avg"
    interpColumn F2 "la09x"
  else .ok F

/-- The merged frame right after the outer joins and the time sort,
before the guarded smoothing step. -/
def mergedPresmooth (stas : List Station) : Except String MFrame :=
  (joinAll stas).map sortFrame

/-- Embedding of `Picks.merge`. -/
def merge (stas : List Station) : Except String MFrame := do
  let P ← mergedPresmooth stas
  applySmoothing P

/-! ### Events.pick_events (EventDetector)

Column selection in the source is by name suffix
(`col.endswith("x")`, `col.endswith("res")`, `col.endswith("res_avg")`),
here by position of the matching names. -/

/-- Positions of the columns whose name ends with `suf`. -/
def colIdxs (F : MFrame) (suf : String) : List ℕ :=
  (List.range F.names.length).filter (fun j => (F.names.getD j "").endsWith suf)

def rowVals (F : MFrame) (i : ℕ) : List (Option ℚ) := (F.rows.getD i dRow).vals

/-- `np.nansum` over the selected columns of row `i`: a missing value
contributes zero. -/
def nansumIdxs (F : MFrame) (idxs : List ℕ) (i : ℕ) : ℚ :=
  (idxs.map (fun j => ((rowVals F i).getD j none).getD 0)).sum

/-- Number of selected columns missing at row `i` (the `nansum` counter
of the source). -/
def nanCountIdxs (F : MFrame) (idxs : List ℕ) (i : ℕ) : ℕ :=
  idxs.countP (fun j => ((rowVals F i).getD j none).isNone)

/-- The raw (pre-padding) activity decision of `Events.pick_events` at
row `i`: `ressum[i] > thresh[i]` and
`nansum < len(x_cols) - (active_stas - 1)`, with Python integer
arithmetic on the right-hand side. -/
def rawActive (F : MFrame) (activeStas : ℤ) (i : ℕ) : Bool :=
  decide (nansumIdxs F (colIdxs F "res") i > nansumIdxs F (colIdxs F "res_avg") i) &&
  decide ((nanCountIdxs F (colIdxs F "x") i : ℤ) < (colIdxs F "x").length - (activeStas - 1))

/-- The raw activity mask over all rows. -/
def rawMask (F : MFrame) (activeStas : ℤ) : List Bool :=
  (List.range F.rows.length).map (rawActive F activeStas)

/-- Modelled from the spec wording for comparison: the NaN-aware sum of
the selected columns at row `i`, missing values excluded from the sum. -/
def specNanSum (F : MFrame) (idxs : List ℕ) (i : ℕ) : ℚ :=
  ((idxs.map (fun j => (rowVals F i).getD j none)).filterMap id).sum

/-- Modelled from the spec wording for comparison: number of selected
columns with a present value at row `i`. -/
def specPresentCount (F : MFrame) (idxs : List ℕ) (i : ℕ) : ℕ :=
  idxs.countP (fun j => ((rowVals F i).getD j none).isSome)

/-- Positions written by the padding loop body for a raw-active row `i`:
for `j in range(1, indices)`, `i + j` if `i + j < len(event)` and
`i - j` if `i - j > 0`. -/
def padWrites (indices len i : ℕ) : List ℕ :=
  (List.range' 1 (indices - 1)).flatMap (fun j =>
    (if i + j < len then [i + j] else []) ++ (if 0 < i - j then [i - j] else []))

def setTrues (l : List Bool) (ws : List ℕ) : List Bool :=
  ws.foldl (fun a p => a.set p true) l

/-- The padding loop of `Events.pick_events`: the raw mask is frozen in
`temp_event` and read there, while writes go to `event`. -/
def padEvent (event : List Bool) (indices : ℕ) : List Bool :=
  (List.range event.length).foldl
    (fun acc i =>
      if event.getD i false then setTrues acc (padWrites indices event.length i) else acc)
    event

/-- Embedding of the event mask produced by `Events.pick_events`:
`indices = int(hr_off * 3600 / 15)`. -/
def pick_events (F : MFrame) (activeStas : ℤ) (hrOff : ℕ) : List Bool :=
  padEvent (rawMask F activeStas) (hrOff * 3600 / 15)

/-! ### Events.make_catalog (CatalogBuilder) -/

/-- Rising-edge indices of the mask: `i >= 1` with
`event[i-1] < event[i]` on the 0/1 mask. -/
def startIndices (mask : List Bool) : List ℕ :=
  (List.range mask.length).filter
    (fun i => decide (1 ≤ i) && !(mask.getD (i - 1) false) && mask.getD i false)

/-- Falling-edge indices of the mask: `i >= 1` with
`event[i-1] > event[i]`. -/
def endIndices (mask : List Bool) : List ℕ :=
  (List.range mask.length).filter
    (fun i => decide (1 ≤ i) && mask.getD (i - 1) false && !(mask.getD i false))

/-- Candidate events `self.merged.iloc[s:e]` for
`s, e in zip(start_indices, end_indices)`.  As in the source, unpaired
trailing start indices produce no candidate (the `None` entries skipped
by the duration cull). -/
def candidateSlices (F : MFrame) (mask : List Bool) : List (List MRow) :=
  ((startIndices mask).zip (endIndices mask)).map (fun p => (F.rows.take p.2).drop p.1)

/-- Duration of a candidate: last-row time minus first-row time; missing
for an empty slice, where the source raises an IndexError. -/
def evDuration (ev : List MRow) : Option ℚ :=
  match ev.head?, ev.getLast? with
  | some a, some b => some (b.time - a.time)
  | _, _ => none

def evColumn (ev : List MRow) (j : ℕ) : List (Option ℚ) :=
  ev.map (fun r => r.vals.getD j none)

/-- `np.mean` applied to a pandas column: the mean of the present
values (pandas skips missing values), missing when no value is
present. -/
def seriesMean (col : List (Option ℚ)) : Option ℚ :=
  let v := col.filterMap id
  if v.isEmpty then none else some (v.sum / v.length)

/-- Net displacement of one station column over a candidate:
`end_val = (last - mean) - (first - mean)`, computed only when the last
entry is present (the `isnan` guard of the source), and itself missing
when the first entry is missing. -/
def evEndVal (col : List (Option ℚ)) : Option ℚ :=
  match col.getLast? with
  | some (some _) =>
    optSub (optSub (col.getLast?.getD none) (seriesMean col))
           (optSub (col.headD none) (seriesMean col))
  | _ => none

/-- `end_avg / x_col_not_nan` over the stations contributing a present
net displacement; missing when no station contributes, where the source
divides by zero. -/
def evAvgDisp (xIdxs : List ℕ) (ev : List MRow) : Option ℚ :=
  let contributions := (xIdxs.map (fun j => evEndVal (evColumn ev j))).filterMap id
  if contributions.isEmpty then none
  else some (contributions.sum / contributions.length)

/-- Left-to-right filtering where the predicate itself can raise. -/
def exceptFilter (p : α → Except String Bool) : List α → Except String (List α)
  | [] => .ok []
  | a :: l => do
    let b ← p a
    let r ← exceptFilter p l
    if b then .ok (a :: r) else .ok r

/-- The duration cull test: keep a candidate iff
`end - start > timedelta(minutes=cull_time)`; an empty candidate raises
an IndexError at `event.iloc[0]`. -/
def durationKeep (cullTime : ℚ) (ev : List MRow) : Except String Bool :=
  match evDuration ev with
  | none => .error "IndexError"
  | some d => .ok (decide (d > cullTime * 60))

/-- The displacement cull test: keep a candidate iff
`end_avg > cull_dist`; with no contributing station the division
`end_avg / x_col_not_nan` raises a ZeroDivisionError. -/
def distKeep (xIdxs : List ℕ) (cullDist : ℚ) (ev : List MRow) : Except String Bool :=
  match evAvgDisp xIdxs ev with
  | none => .error "ZeroDivisionError"
  | some a => .ok (decide (a > cullDist))

/-- Embedding of `Events.make_catalog(cull_time, cull_dist)`: extract
candidates between rising and falling edges, cull by duration, then cull
by station-averaged net x displacement over the columns whose name ends
with `x`. -/
def make_catalog (F : MFrame) (mask : List Bool) (cullTime cullDist : ℚ) :
    Except String (List (List MRow)) := do
  let c1 ← exceptFilter (durationKeep cullTime) (candidateSlices F mask)
  exceptFilter (distKeep (colIdxs F "x") cullDist) c1

/-! ### Concrete scenarios used by counterexamples and witnesses -/

/-- A three-sample station series with two interpolatable 60 s gaps
(nominal interval 15 s, maximum interpolatable gap 120 s). -/
def exStream : SFrame := ⟨[0, 60, 120], [[some 0, some 600, some 1200]]⟩

/-- What `findgaps` actually returns on `exStream`: only the second gap
is filled. -/
def exStreamFilled : SFrame :=
  ⟨[0, 60, 75, 90, 105, 120],
   [[some 0, some 600, some 750, some 900, some 1050, some 1200]]⟩

def exLa05 : Station :=
  ⟨"la05", [0, 15, 30], [some 20, some 21, some 22], [some 30, some 31, some 32],
   [some 1, some 1, some 1], [some 2, some 2, some 2]⟩

def exLa09 : Station :=
  ⟨"la09", [0, 30], [some 5, some 7], [some 8, some 9], [some 1, some 2], [some 3, some 5]⟩

def exLa00 : Station :=
  ⟨"la00", [0, 15, 30], [some 100, some 101, some 102], [some 200, some 201, some 202],
   [some 1, some 1, some 1], [some 2, some 2, some 2]⟩

/-- Result of `merge [exLa09, exLa05]`: la09 is present, la00 is not, so
no smoothing happens and the isolated missing la09 entries at t = 15
stay missing. -/
def c3M : MFrame :=
  ⟨["la09x", "la09y", "la09res", "la09res_avg", "la05x", "la05y", "la05res", "la05res_avg"],
   [⟨0, [some 5, some 8, some 1, some 3, some 20, some 30, some 1, some 2]⟩,
    ⟨15, [none, none, none, none, some 21, some 31, some 1, some 2]⟩,
    ⟨30, [some 7, some 9, some 2, some 5, some 22, some 32, some 1, some 2]⟩]⟩

/-- Result of `merge [exLa00, exLa09]`: la00 is present, so the la09
res, res_avg and x columns are smoothed, filling t = 15 although la09
has no sample there. -/
def c7M : MFrame :=
  ⟨["la00x", "la00y", "la00res", "la00res_avg", "la09x", "la09y", "la09res", "la09res_avg"],
   [⟨0, [some 100, some 200, some 1, some 2, some 5, some 8, some 1, some 3]⟩,
    ⟨15, [some 101, some 201, some 1, some 2, some 6, none, some (3 / 2), some 4]⟩,
    ⟨30, [some 102, some 202, some 1, some 2, some 7, some 9, some 2, some 5]⟩]⟩

/-- The merged frame of `[exLa00, exLa09]` before the smoothing step. -/
def c7P : MFrame :=
  ⟨["la00x", "la00y", "la00res", "la00res_avg", "la09x", "la09y", "la09res", "la09res_avg"],
   [⟨0, [some 100, some 200, some 1, some 2, some 5, some 8, some 1, some 3]⟩,
    ⟨15, [some 101, some 201, some 1, some 2, none, none, none, none]⟩,
    ⟨30, [some 102, some 202, some 1, some 2, some 7, some 9, some 2, some 5]⟩]⟩

/-- Merged frame whose single candidate event has no station with a
present x endpoint. -/
def c1F : MFrame :=
  ⟨["s1x"],
   [⟨-15, [none]⟩, ⟨0, [none]⟩, ⟨3600, [none]⟩, ⟨7200, [none]⟩, ⟨7215, [none]⟩]⟩

def cullMask : List Bool := [false, true, true, true, false]

/-- Merged frame whose single candidate event survives both culls. -/
def c8F : MFrame :=
  ⟨["s1x"],
   [⟨-15, [some 50]⟩, ⟨0, [some 0]⟩, ⟨3600, [some 1]⟩, ⟨7200, [some 10]⟩, ⟨7215, [some 50]⟩]⟩

def c8ev : List MRow := [⟨0, [some 0]⟩, ⟨3600, [some 1]⟩, ⟨7200, [some 10]⟩]

/-- Five-row merged frame whose raw mask is active exactly at row 2. -/
def c6F : MFrame :=
  ⟨["ax", "ares", "ares_avg"],
   [⟨0, [some 0, some 0, some 0]⟩,
    ⟨15, [some 0, some 0, some 0]⟩,
    ⟨30, [some 0, some 1, some 0]⟩,
    ⟨45, [some 0, some 0, some 0]⟩,
    ⟨60, [some 0, some 0, some 0]⟩]⟩

/-- A 481-row merged frame whose raw mask is active exactly at row 240,
far enough from both boundaries for one hour of padding. -/
def c6W : MFrame :=
  ⟨["ax", "ares", "ares_avg"],
   (List.range 481).map (fun k =>
     ⟨15 * k, [some 0, some (if k = 240 then 1 else 0), some 0]⟩)⟩

/-! ### Helper lemmas -/

theorem range_map_getD (l : List α) (d : α) :
    (List.range l.length).map (fun k => l.getD k d) = l := by
  induction l with
  | nil => rfl
  | cons a t ih =>
    rw [List.length_cons, List.range_succ_eq_map, List.map_cons, List.map_map]
    simp only [Function.comp_def, List.getD_cons_zero, List.getD_cons_succ]
    rw [ih]

theorem map_range_getD (f : α → β) (l : List α) (d : α) :
    (List.range l.length).map (fun k => f (l.getD k d)) = l.map f := by
  have h := congrArg (List.map f) (range_map_getD l d)
  rw [List.map_map] at h
  exact h

theorem sum_getD_eq_sum_filterMap : ∀ l : List (Option ℚ),
    (l.map (fun o => o.getD 0)).sum = (l.filterMap id).sum := by
  intro l
  induction l with
  | nil => rfl
  | cons o t ih => cases o <;> simp [ih]

theorem countP_not_add_countP (p : α → Bool) (l : List α) :
    l.countP (fun a => !(p a)) + l.countP p = l.length := by
  induction l with
  | nil => rfl
  | cons a t ih => cases hp : p a <;> simp [List.countP_cons, hp] <;> omega

theorem takeWhile_getD_true : ∀ (l : List Bool) (i : ℕ),
    i < (l.takeWhile id).length → l.getD i false = true := by
  intro l
  induction l with
  | nil => intro i h; simp [List.takeWhile] at h
  | cons b t ih =>
    intro i h
    cases hb : b with
    | false => rw [List.takeWhile_cons] at h; simp [hb] at h
    | true =>
      rw [List.takeWhile_cons] at h
      simp only [hb, id, if_true] at h
      cases i with
      | zero => simp [hb]
      | succ k =>
        simp only [List.getD_cons_succ]
        exact ih k (by simpa using h)

theorem exceptFilter_ok_mem {α : Type} {p : α → Except String Bool} :
    ∀ (l r : List α), exceptFilter p l = .ok r →
      ∀ a, a ∈ r ↔ a ∈ l ∧ p a = .ok true := by
  intro l
  induction l with
  | nil =>
    intro r h a
    simp only [exceptFilter] at h
    cases h
    simp
  | cons b t ih =>
    intro r h a
    simp only [exceptFilter, bind, Except.bind] at h
    cases hpb : p b with
    | error e => rw [hpb] at h; cases h
    | ok bb =>
      rw [hpb] at h
      cases hre : exceptFilter p t with
      | error e => rw [hre] at h; cases h
      | ok r2 =>
        rw [hre] at h
        have ihm := ih r2 hre a
        cases bb with
        | true =>
          simp only [if_pos rfl] at h
          cases h
          simp only [List.mem_cons, ihm]
          constructor
          · rintro (rfl | ⟨hat, hpa⟩)
            · exact ⟨Or.inl rfl, hpb⟩
            · exact ⟨Or.inr hat, hpa⟩
          · rintro ⟨rfl | hat, hpa⟩
            · exact Or.inl rfl
            · exact Or.inr ⟨hat, hpa⟩
        | false =>
          simp only [Bool.false_eq_true, if_neg] at h
          cases h
          rw [ihm]
          constructor
          · rintro ⟨hat, hpa⟩
            exact ⟨List.mem_cons_of_mem _ hat, hpa⟩
          · intro hcon
            obtain ⟨hmem, hpa⟩ := hcon
            rcases List.mem_cons.mp hmem with rfl | hat
            · rw [hpb] at hpa
              cases hpa
            · exact ⟨hat, hpa⟩

theorem getD_set_true (l : List Bool) (p k : ℕ) :
    (l.set p true).getD k false = true ↔
      l.getD k false = true ∨ (k = p ∧ k < l.length) := by
  rw [List.getD_eq_getElem?_getD, List.getD_eq_getElem?_getD, List.getElem?_set]
  rcases eq_or_ne p k with rfl | hne
  · by_cases hk : p < l.length
    · simp [hk]
    · rw [if_pos rfl, if_neg hk, List.getElem?_eq_none (by omega)]
      simp
      omega
  · rw [if_neg hne]
    simp
    intro h
    exact absurd h.symm hne

theorem setTrues_length (ws : List ℕ) : ∀ l : List Bool, (setTrues l ws).length = l.length := by
  induction ws with
  | nil => intro l; rfl
  | cons p ws ih =>
    intro l
    have hstep : setTrues l (p :: ws) = setTrues (l.set p true) ws := rfl
    rw [hstep, ih, List.length_set]

theorem setTrues_getD (ws : List ℕ) : ∀ (l : List Bool) (k : ℕ),
    (setTrues l ws).getD k false = true ↔
      l.getD k false = true ∨ (k ∈ ws ∧ k < l.length) := by
  induction ws with
  | nil => intro l k; simp [setTrues]
  | cons p ws ih =>
    intro l k
    have hstep : setTrues l (p :: ws) = setTrues (l.set p true) ws := rfl
    rw [hstep, ih, getD_set_true, List.length_set]
    constructor
    · rintro ((h | ⟨rfl, hk⟩) | ⟨hmem, hk⟩)
      · exact Or.inl h
      · exact Or.inr ⟨List.mem_cons_self _ _, hk⟩
      · exact Or.inr ⟨List.mem_cons_of_mem _ hmem, hk⟩
    · rintro (h | ⟨hmem, hk⟩)
      · exact Or.inl (Or.inl h)
      · rcases List.mem_cons.mp hmem with rfl | hmem2
        · exact Or.inl (Or.inr ⟨rfl, hk⟩)
        · exact Or.inr ⟨hmem2, hk⟩

theorem pad_foldl_getD (temp : List Bool) (indices len k : ℕ) :
    ∀ (is : List ℕ) (acc : List Bool), acc.length = len →
      (((is.foldl (fun a i =>
          if temp.getD i false then setTrues a (padWrites indices len i) else a) acc).getD
            k false = true) ↔
        (acc.getD k false = true ∨
          ∃ i ∈ is, temp.getD i false = true ∧ k ∈ padWrites indices len i ∧ k < len)) := by
  intro is
  induction is with
  | nil => intro acc hlen; simp
  | cons i0 is ih =>
    intro acc hlen
    rw [List.foldl_cons]
    by_cases hact : temp.getD i0 false = true
    · rw [if_pos hact]
      rw [ih _ (by rw [setTrues_length, hlen])]
      rw [setTrues_getD, hlen]
      constructor
      · rintro ((h | ⟨hw, hk⟩) | ⟨i, hi, hia, hiw, hik⟩)
        · exact Or.inl h
        · exact Or.inr ⟨i0, List.mem_cons_self _ _, hact, hw, hk⟩
        · exact Or.inr ⟨i, List.mem_cons_of_mem _ hi, hia, hiw, hik⟩
      · rintro (h | ⟨i, hi, hia, hiw, hik⟩)
        · exact Or.inl (Or.inl h)
        · rcases List.mem_cons.mp hi with rfl | hi2
          · exact Or.inl (Or.inr ⟨hiw, hik⟩)
          · exact Or.inr ⟨i, hi2, hia, hiw, hik⟩
    · rw [if_neg hact]
      rw [ih _ hlen]
      constructor
      · rintro (h | ⟨i, hi, hia, hiw, hik⟩)
        · exact Or.inl h
        · exact Or.inr ⟨i, List.mem_cons_of_mem _ hi, hia, hiw, hik⟩
      · rintro (h | ⟨i, hi, hia, hiw, hik⟩)
        · exact Or.inl h
        · rcases List.mem_cons.mp hi with rfl | hi2
          · exact absurd hia hact
          · exact Or.inr ⟨i, hi2, hia, hiw, hik⟩

theorem padEvent_getD (e : List Bool) (ind k : ℕ) :
    (padEvent e ind).getD k false = true ↔
      e.getD k false = true ∨
        ∃ i, i < e.length ∧ e.getD i false = true ∧
          k ∈ padWrites ind e.length i ∧ k < e.length := by
  unfold padEvent
  rw [pad_foldl_getD e ind e.length k (List.range e.length) e rfl]
  simp [List.mem_range]

theorem mem_padWrites (indices len i k : ℕ) :
    k ∈ padWrites indices len i ↔
      ∃ j, 1 ≤ j ∧ j < indices ∧ ((k = i + j ∧ i + j < len) ∨ (k = i - j ∧ j < i)) := by
  unfold padWrites
  rw [List.mem_flatMap]
  constructor
  · rintro ⟨j, hj, hmem⟩
    obtain ⟨j2, hj2, rfl⟩ := List.mem_range'.mp hj
    refine ⟨1 + 1 * j2, by omega, by omega, ?_⟩
    rcases List.mem_append.mp hmem with hL | hR
    · by_cases hc : i + (1 + 1 * j2) < len
      · rw [if_pos hc] at hL
        rcases List.mem_singleton.mp hL with rfl
        exact Or.inl ⟨rfl, hc⟩
      · rw [if_neg hc] at hL
        cases hL
    · by_cases hc : 0 < i - (1 + 1 * j2)
      · rw [if_pos hc] at hR
        rcases List.mem_singleton.mp hR with rfl
        exact Or.inr ⟨rfl, by omega⟩
      · rw [if_neg hc] at hR
        cases hR
  · rintro ⟨j, hj1, hj2, (⟨rfl, hc⟩ | ⟨rfl, hc⟩)⟩
    · refine ⟨j, List.mem_range'.mpr ⟨j - 1, by omega, by omega⟩, ?_⟩
      rw [List.mem_append]
      exact Or.inl (by rw [if_pos hc]; exact List.mem_singleton.mpr rfl)
    · refine ⟨j, List.mem_range'.mpr ⟨j - 1, by omega, by omega⟩, ?_⟩
      rw [List.mem_append]
      exact Or.inr (by rw [if_pos (by omega)]; exact List.mem_singleton.mpr rfl)

theorem getD_mem_of_lt {l : List α} {k : ℕ} (d : α) (hk : k < l.length) : l.getD k d ∈ l := by
  rw [List.getD_eq_getElem?_getD, List.getElem?_eq_getElem hk]
  exact List.getElem_mem hk

theorem getD_eq_default_of_le {l : List α} {n : ℕ} (d : α) (h : l.length ≤ n) :
    l.getD n d = d := by
  rw [List.getD_eq_getElem?_getD, List.getElem?_eq_none h]
  rfl

theorem getElem?_map_range (f : ℕ → α) (n k : ℕ) :
    ((List.range n).map f)[k]? = if k < n then some (f k) else none := by
  rw [List.getElem?_map]
  by_cases h : k < n
  · rw [List.getElem?_range h, if_pos h]
    rfl
  · rw [if_neg h, List.getElem?_eq_none (by simpa using h)]
    rfl

theorem getD_map_range (f : ℕ → α) (n i : ℕ) (d : α) (h : i < n) :
    ((List.range n).map f).getD i d = f i := by
  rw [List.getD_eq_getElem?_getD, List.getElem?_map, List.getElem?_range h]
  rfl

theorem interp1_length (l : List (Option ℚ)) : (interp1 l).length = l.length := by
  simp [interp1]

theorem interp1_getD_lt (l : List (Option ℚ)) (i : ℕ) (h : i < l.length) :
    (interp1 l).getD i none = interp1At l i := by
  unfold interp1
  exact getD_map_range _ _ _ _ h

/-- The limit-1 interpolation changes a column only at missing entries
whose immediate predecessor is present: the first missing row of a run,
never a deeper row of a genuine gap. -/
theorem interp1_changed_only_first_of_run (l : List (Option ℚ)) (i : ℕ)
    (h : (interp1 l).getD i none ≠ l.getD i none) :
    l.getD i none = none ∧ 1 ≤ i ∧ l.getD (i - 1) none ≠ none ∧ i < l.length := by
  by_cases hlen : i < l.length
  · have hat : (interp1 l).getD i none = interp1At l i := interp1_getD_lt l i hlen
    rw [hat] at h
    cases hli : l.getD i none with
    | some v =>
      exfalso
      apply h
      unfold interp1At
      rw [hli]
    | none =>
      refine ⟨rfl, ?_, ?_, hlen⟩
      · by_contra h1
        have hi0 : i = 0 := by omega
        apply h
        unfold interp1At
        rw [hli, if_pos hi0]
      · intro hk
        apply h
        unfold interp1At
        rw [hli, hk]
        by_cases hi0 : i = 0
        · rw [if_pos hi0]
        · rw [if_neg hi0]
  · exfalso
    apply h
    rw [getD_eq_default_of_le none (by rw [interp1_length]; omega),
      getD_eq_default_of_le none (by omega)]

/-- A single isolated missing entry with present neighbors is filled by
the limit-1 interpolation with the midpoint of the neighbors. -/
theorem interp1_isolated_fill (l : List (Option ℚ)) (i : ℕ) (a b : ℚ)
    (hi : 1 ≤ i) (hlen : i + 1 < l.length)
    (h0 : l.getD i none = none)
    (hp : l.getD (i - 1) none = some a)
    (hn : l.getD (i + 1) none = some b) :
    (interp1 l).getD i none = some (a + (b - a) / 2) := by
  rw [interp1_getD_lt l i (by omega)]
  have hdrop : l.drop (i + 1) = some b :: l.drop (i + 2) := by
    rw [List.drop_eq_getElem_cons (by omega)]
    rw [List.getD_eq_getElem?_getD, List.getElem?_eq_getElem (by omega)] at hn
    simp only [Option.getD_some] at hn
    rw [hn]
  unfold interp1At
  rw [h0, if_neg (by omega), hp, hdrop]
  show some (a + (b - a) / (((0 : ℕ) : ℚ) + 2)) = some (a + (b - a) / 2)
  norm_num

theorem getColumn_length (F : MFrame) (j : ℕ) : (getColumn F j).length = F.rows.length := by
  simp [getColumn]

theorem setColumn_rows_length (F : MFrame) (j : ℕ) (c : List (Option ℚ)) :
    (setColumn F j c).rows.length = F.rows.length := by
  simp [setColumn]

theorem setColumn_vals_length (F : MFrame) (j : ℕ) (c : List (Option ℚ))
    (h : ∀ r ∈ F.rows, r.vals.length = F.names.length) :
    ∀ r ∈ (setColumn F j c).rows, r.vals.length = F.names.length := by
  intro r hr
  simp only [setColumn, List.mem_map, List.mem_range] at hr
  obtain ⟨k, hk, rfl⟩ := hr
  simp only [List.length_set]
  exact h _ (getD_mem_of_lt dRow hk)

theorem getColumn_setColumn_self (F : MFrame) (j : ℕ) (c : List (Option ℚ))
    (hc : c.length = F.rows.length)
    (hwf : ∀ r ∈ F.rows, j < r.vals.length) :
    getColumn (setColumn F j c) j = c := by
  unfold getColumn setColumn
  simp only [List.map_map]
  apply List.ext_getElem?
  intro k
  rw [getElem?_map_range]
  by_cases hk : k < F.rows.length
  · rw [if_pos hk]
    have hj : j < (F.rows.getD k dRow).vals.length := hwf _ (getD_mem_of_lt dRow hk)
    simp only [Function.comp_apply]
    rw [List.getD_eq_getElem?_getD, List.getElem?_set_self hj]
    rw [List.getD_eq_getElem?_getD, List.getElem?_eq_getElem (by omega)]
    rfl
  · rw [if_neg hk, eq_comm, List.getElem?_eq_none (by omega)]

theorem getColumn_setColumn_ne (F : MFrame) (j j' : ℕ) (c : List (Option ℚ))
    (hne : j' ≠ j) :
    getColumn (setColumn F j' c) j = getColumn F j := by
  unfold getColumn setColumn
  simp only [List.map_map]
  have hfun : ((fun r : MRow => r.vals.getD j none) ∘ fun k =>
      ⟨(F.rows.getD k dRow).time, (F.rows.getD k dRow).vals.set j' (c.getD k none)⟩) =
      fun k => (F.rows.getD k dRow).vals.getD j none := by
    funext k
    simp only [Function.comp_apply]
    rw [List.getD_eq_getElem?_getD, List.getElem?_set_ne hne, ← List.getD_eq_getElem?_getD]
  rw [hfun, map_range_getD (fun r : MRow => r.vals.getD j none) F.rows dRow]

theorem stationFrame_wf (s : Station) :
    ∀ r ∈ (stationFrame s).rows, r.vals.length = (stationFrame s).names.length := by
  intro r hr
  simp only [stationFrame, List.mem_map, List.mem_range] at hr
  obtain ⟨k, hk, rfl⟩ := hr
  rfl

theorem joinTwo_wf (A B : MFrame)
    (hA : ∀ r ∈ A.rows, r.vals.length = A.names.length)
    (hB : ∀ r ∈ B.rows, r.vals.length = B.names.length) :
    ∀ r ∈ (joinTwo A B).rows, r.vals.length = (joinTwo A B).names.length := by
  intro r hr
  simp only [joinTwo, List.mem_append, List.mem_map, List.mem_filter] at hr
  simp only [joinTwo]
  rcases hr with ⟨a, ha, rfl⟩ | ⟨b, hb, rfl⟩
  · simp only [List.length_append]
    rw [hA a ha]
    congr 1
    cases hf2 : B.rows.find? (fun s => decide (s.time = a.time)) with
    | none => simp
    | some sb =>
      show sb.vals.length = B.names.length
      exact hB sb (List.mem_of_find?_eq_some hf2)
  · simp only [List.length_append, List.length_replicate]
    rw [hB b hb.1]

theorem foldl_joinTwo_wf (rest : List Station) :
    ∀ A : MFrame, (∀ r ∈ A.rows, r.vals.length = A.names.length) →
      ∀ r ∈ (rest.foldl (fun acc t => joinTwo acc (stationFrame t)) A).rows,
        r.vals.length = (rest.foldl (fun acc t => joinTwo acc (stationFrame t)) A).names.length := by
  induction rest with
  | nil => intro A hA; exact hA
  | cons s rest ih =>
    intro A hA
    exact ih _ (joinTwo_wf A (stationFrame s) hA (stationFrame_wf s))

theorem mergedPresmooth_wf (stas : List Station) (P : MFrame)
    (h : mergedPresmooth stas = .ok P) :
    ∀ r ∈ P.rows, r.vals.length = P.names.length := by
  cases stas with
  | nil => simp [mergedPresmooth, joinAll, Except.map] at h
  | cons s rest =>
    simp only [mergedPresmooth, joinAll, Except.map] at h
    obtain rfl := (Except.ok.inj h).symm
    intro r hr
    have hperm := List.perm_insertionSort rowLe
      (rest.foldl (fun acc t => joinTwo acc (stationFrame t)) (stationFrame s)).rows
    have hr2 : r ∈ (rest.foldl (fun acc t => joinTwo acc (stationFrame t))
        (stationFrame s)).rows := hperm.mem_iff.mp hr
    exact foldl_joinTwo_wf rest (stationFrame s) (stationFrame_wf s) r hr2

theorem getD_append_left {l₁ l₂ : List α} {n : ℕ} (d : α) (h : n < l₁.length) :
    (l₁ ++ l₂).getD n d = l₁.getD n d := by
  rw [List.getD_eq_getElem?_getD, List.getElem?_append_left h, ← List.getD_eq_getElem?_getD]

theorem getD_append_right {l₁ l₂ : List α} {n : ℕ} (d : α) (h : l₁.length ≤ n) :
    (l₁ ++ l₂).getD n d = l₂.getD (n - l₁.length) d := by
  rw [List.getD_eq_getElem?_getD, List.getElem?_append_right h, ← List.getD_eq_getElem?_getD]

theorem getD_replicate_self {α : Type} (a : α) (n k : ℕ) :
    (List.replicate n a).getD k a = a := by
  rw [List.getD_eq_getElem?_getD, List.getElem?_replicate]
  split <;> rfl

theorem stationFrame_times (s : Station) :
    (stationFrame s).rows.map (fun r => r.time) = s.times := by
  unfold stationFrame
  rw [List.map_map]
  show (List.range s.times.length).map (fun k => s.times.getD k 0) = s.times
  exact range_map_getD s.times 0

theorem stationFrame_row_time (s : Station) :
    ∀ r ∈ (stationFrame s).rows, r.time ∈ s.times := by
  intro r hr
  simp only [stationFrame, List.mem_map, List.mem_range] at hr
  obtain ⟨k, hk, rfl⟩ := hr
  exact getD_mem_of_lt 0 hk

theorem joinTwo_times (A B : MFrame) :
    (joinTwo A B).rows.map (fun r => r.time) =
      A.rows.map (fun r => r.time) ++
      (B.rows.filter (fun s => !(A.rows.any (fun r => decide (r.time = s.time))))).map
        (fun r => r.time) := by
  simp only [joinTwo, List.map_append, List.map_map]
  rfl

theorem setColumn_times (F : MFrame) (j : ℕ) (c : List (Option ℚ)) :
    (setColumn F j c).rows.map (fun r => r.time) = F.rows.map (fun r => r.time) := by
  unfold setColumn
  rw [List.map_map]
  show (List.range F.rows.length).map (fun k => (F.rows.getD k dRow).time) =
    F.rows.map (fun r => r.time)
  exact map_range_getD (fun r => r.time) F.rows dRow

theorem interpColumn_names_times (F G : MFrame) (cn : String)
    (h : interpColumn F cn = .ok G) :
    G.names = F.names ∧ G.rows.map (fun r => r.time) = F.rows.map (fun r => r.time) := by
  unfold interpColumn at h
  cases hf : F.names.findIdx? (fun n => n = cn) with
  | none => rw [hf] at h; cases h
  | some j =>
    rw [hf] at h
    obtain rfl := Except.ok.inj h
    exact ⟨rfl, setColumn_times F j _⟩

theorem applySmoothing_names_times (P M : MFrame) (h : applySmoothing P = .ok M) :
    M.names = P.names ∧ M.rows.map (fun r => r.time) = P.rows.map (fun r => r.time) := by
  unfold applySmoothing at h
  by_cases hg : "la00res" ∈ P.names
  · rw [if_pos hg] at h
    simp only [bind, Except.bind] at h
    cases hc1 : interpColumn P "la09res" with
    | error e => rw [hc1] at h; cases h
    | ok F1 =>
      simp only [hc1] at h
      cases hc2 : interpColumn F1 "la09res_avg" with
      | error e => rw [hc2] at h; cases h
      | ok F2 =>
        simp only [hc2] at h
        cases hc3 : interpColumn F2 "la09x" with
        | error e => rw [hc3] at h; cases h
        | ok F3 =>
          rw [hc3] at h
          obtain rfl := Except.ok.inj h
          obtain ⟨ha1, hb1⟩ := interpColumn_names_times P F1 _ hc1
          obtain ⟨ha2, hb2⟩ := interpColumn_names_times F1 F2 _ hc2
          obtain ⟨ha3, hb3⟩ := interpColumn_names_times F2 F3 _ hc3
          exact ⟨by rw [ha3, ha2, ha1], by rw [hb3, hb2, hb1]⟩
  · rw [if_neg hg] at h
    obtain rfl := Except.ok.inj h
    exact ⟨rfl, rfl⟩

theorem applySmoothing_id_of_not_mem (P : MFrame) (hg : "la00res" ∉ P.names) :
    applySmoothing P = .ok P := by
  unfold applySmoothing
  rw [if_neg hg]

theorem joinTwo_inv (A : MFrame) (cov : List Station) (s : Station)
    (h1 : A.names.length = 4 * cov.length)
    (h2 : ∀ r ∈ A.rows, r.vals.length = A.names.length)
    (h3 : (A.rows.map (fun r => r.time)).Nodup)
    (h4 : ∀ t, t ∈ A.rows.map (fun r => r.time) ↔ ∃ u ∈ cov, t ∈ u.times)
    (h5 : ∀ k, k < cov.length → ∀ r ∈ A.rows, r.time ∉ (cov.getD k dSta).times →
        ∀ c, c < 4 → r.vals.getD (4 * k + c) none = none)
    (hs : s.times.Nodup) :
    (joinTwo A (stationFrame s)).names.length = 4 * (cov ++ [s]).length ∧
    (∀ r ∈ (joinTwo A (stationFrame s)).rows,
        r.vals.length = (joinTwo A (stationFrame s)).names.length) ∧
    ((joinTwo A (stationFrame s)).rows.map (fun r => r.time)).Nodup ∧
    (∀ t, t ∈ (joinTwo A (stationFrame s)).rows.map (fun r => r.time) ↔
        ∃ u ∈ cov ++ [s], t ∈ u.times) ∧
    (∀ k, k < (cov ++ [s]).length → ∀ r ∈ (joinTwo A (stationFrame s)).rows,
        r.time ∉ ((cov ++ [s]).getD k dSta).times →
        ∀ c, c < 4 → r.vals.getD (4 * k + c) none = none) := by
  have hBtimes := stationFrame_times s
  refine ⟨?_, joinTwo_wf A (stationFrame s) h2 (stationFrame_wf s), ?_, ?_, ?_⟩
  · simp only [joinTwo, List.length_append, h1, stationFrame, stationCols,
      List.length_cons, List.length_nil, List.length_singleton]
    omega
  · rw [joinTwo_times, List.nodup_append]
    refine ⟨h3, ?_, ?_⟩
    · have hsub : List.Sublist
          (((stationFrame s).rows.filter
            (fun b => !(A.rows.any (fun r => decide (r.time = b.time))))).map (fun r => r.time))
          ((stationFrame s).rows.map (fun r => r.time)) :=
        (List.filter_sublist _).map _
      have hnd : ((stationFrame s).rows.map (fun r => r.time)).Nodup := by
        rw [hBtimes]
        exact hs
      exact List.Nodup.sublist hsub hnd
    · intro t ht1 ht2
      simp only [List.mem_map, List.mem_filter] at ht2
      obtain ⟨b, ⟨hbB, hq⟩, rfl⟩ := ht2
      rw [Bool.not_eq_true'] at hq
      rw [List.any_eq_false] at hq
      simp only [List.mem_map] at ht1
      obtain ⟨a, haA, hat⟩ := ht1
      exact hq a haA (decide_eq_true hat)
  · intro t
    rw [joinTwo_times, List.mem_append]
    constructor
    · rintro (ht | ht)
      · obtain ⟨u, hu, hut⟩ := (h4 t).mp ht
        exact ⟨u, List.mem_append_left _ hu, hut⟩
      · simp only [List.mem_map, List.mem_filter] at ht
        obtain ⟨b, ⟨hbB, hq⟩, rfl⟩ := ht
        exact ⟨s, List.mem_append_right _ (List.mem_singleton.mpr rfl),
          stationFrame_row_time s b hbB⟩
    · rintro ⟨u, hu, hut⟩
      rcases List.mem_append.mp hu with hcov | hsing
      · exact Or.inl ((h4 t).mpr ⟨u, hcov, hut⟩)
      · obtain rfl := List.mem_singleton.mp hsing
        by_cases hA : t ∈ A.rows.map (fun r => r.time)
        · exact Or.inl hA
        · refine Or.inr ?_
          have hB : t ∈ (stationFrame u).rows.map (fun r => r.time) := by
            rw [stationFrame_times]
            exact hut
          simp only [List.mem_map] at hB
          obtain ⟨b, hbB, rfl⟩ := hB
          simp only [List.mem_map, List.mem_filter]
          refine ⟨b, ⟨hbB, ?_⟩, rfl⟩
          rw [Bool.not_eq_true', List.any_eq_false]
          intro r hr hdec
          exact hA (List.mem_map.mpr ⟨r, hr, of_decide_eq_true hdec⟩)
  · intro k hk r hr hout c hc
    simp only [List.length_append, List.length_singleton] at hk
    simp only [joinTwo, List.mem_append, List.mem_map, List.mem_filter] at hr
    rcases hr with ⟨a, haA, rfl⟩ | ⟨b, ⟨hbB, hq⟩, rfl⟩
    · by_cases hklt : k < cov.length
      · rw [getD_append_left dSta hklt] at hout
        have hlt : 4 * k + c < a.vals.length := by
          rw [h2 a haA, h1]
          omega
        rw [getD_append_left none hlt]
        exact h5 k hklt a haA hout c hc
      · have hkeq : k = cov.length := by omega
        subst hkeq
        rw [getD_append_right dSta (le_refl _), Nat.sub_self] at hout
        have hfind : (stationFrame s).rows.find? (fun sb => decide (sb.time = a.time)) =
            none := by
          rw [List.find?_eq_none]
          intro b hbB hdec
          exact hout (of_decide_eq_true hdec ▸ stationFrame_row_time s b hbB)
        have hge : a.vals.length ≤ 4 * cov.length + c := by
          rw [h2 a haA, h1]
          omega
        rw [getD_append_right none hge]
        simp only [hfind]
        have hsub : 4 * cov.length + c - a.vals.length = c := by
          rw [h2 a haA, h1]
          omega
        rw [hsub]
        exact getD_replicate_self none _ c
    · by_cases hklt : k < cov.length
      · have hlt : 4 * k + c < (List.replicate A.names.length (none : Option ℚ)).length := by
          rw [List.length_replicate, h1]
          omega
        rw [getD_append_left none hlt]
        exact getD_replicate_self none _ _
      · have hkeq : k = cov.length := by omega
        subst hkeq
        rw [getD_append_right dSta (le_refl _), Nat.sub_self] at hout
        exact absurd (stationFrame_row_time s b hbB) hout

theorem stationFrame_inv (s : Station) (hs : s.times.Nodup) :
    (stationFrame s).names.length = 4 * ([s] : List Station).length ∧
    (∀ r ∈ (stationFrame s).rows, r.vals.length = (stationFrame s).names.length) ∧
    ((stationFrame s).rows.map (fun r => r.time)).Nodup ∧
    (∀ t, t ∈ (stationFrame s).rows.map (fun r => r.time) ↔
        ∃ u ∈ ([s] : List Station), t ∈ u.times) ∧
    (∀ k, k < ([s] : List Station).length → ∀ r ∈ (stationFrame s).rows,
        r.time ∉ (([s] : List Station).getD k dSta).times → ∀ c, c < 4 →
        r.vals.getD (4 * k + c) none = none) := by
  refine ⟨rfl, stationFrame_wf s, ?_, ?_, ?_⟩
  · rw [stationFrame_times]
    exact hs
  · intro t
    rw [stationFrame_times]
    simp
  · intro k hk r hr hout c hc
    simp only [List.length_singleton] at hk
    have hk0 : k = 0 := by omega
    subst hk0
    exact absurd (stationFrame_row_time s r hr) hout

theorem foldl_joinTwo_inv (rest : List Station) :
    ∀ (A : MFrame) (cov : List Station),
      A.names.length = 4 * cov.length →
      (∀ r ∈ A.rows, r.vals.length = A.names.length) →
      (A.rows.map (fun r => r.time)).Nodup →
      (∀ t, t ∈ A.rows.map (fun r => r.time) ↔ ∃ u ∈ cov, t ∈ u.times) →
      (∀ k, k < cov.length → ∀ r ∈ A.rows, r.time ∉ (cov.getD k dSta).times →
        ∀ c, c < 4 → r.vals.getD (4 * k + c) none = none) →
      (∀ u ∈ rest, u.times.Nodup) →
      ((rest.foldl (fun acc t => joinTwo acc (stationFrame t)) A).names.length =
          4 * (cov ++ rest).length ∧
        (∀ r ∈ (rest.foldl (fun acc t => joinTwo acc (stationFrame t)) A).rows,
          r.vals.length =
            (rest.foldl (fun acc t => joinTwo acc (stationFrame t)) A).names.length) ∧
        ((rest.foldl (fun acc t => joinTwo acc (stationFrame t)) A).rows.map
            (fun r => r.time)).Nodup ∧
        (∀ t, t ∈ (rest.foldl (fun acc t => joinTwo acc (stationFrame t)) A).rows.map
            (fun r => r.time) ↔ ∃ u ∈ cov ++ rest, t ∈ u.times) ∧
        (∀ k, k < (cov ++ rest).length →
          ∀ r ∈ (rest.foldl (fun acc t => joinTwo acc (stationFrame t)) A).rows,
            r.time ∉ ((cov ++ rest).getD k dSta).times →
            ∀ c, c < 4 → r.vals.getD (4 * k + c) none = none)) := by
  induction rest with
  | nil =>
    intro A cov hh1 hh2 hh3 hh4 hh5 hrest
    rw [List.append_nil]
    exact ⟨hh1, hh2, hh3, hh4, hh5⟩
  | cons s rest ih =>
    intro A cov hh1 hh2 hh3 hh4 hh5 hrest
    obtain ⟨g1, g2, g3, g4, g5⟩ :=
      joinTwo_inv A cov s hh1 hh2 hh3 hh4 hh5 (hrest s (List.mem_cons_self _ _))
    have hres := ih (joinTwo A (stationFrame s)) (cov ++ [s]) g1 g2 g3 g4 g5
      (fun u hu => hrest u (List.mem_cons_of_mem _ hu))
    have hassoc : cov ++ s :: rest = (cov ++ [s]) ++ rest := by simp
    rw [List.foldl_cons, hassoc]
    exact hres

theorem mergedPresmooth_inv (stas : List Station) (P : MFrame)
    (hnd : ∀ s ∈ stas, s.times.Nodup)
    (hP : mergedPresmooth stas = .ok P) :
    (P.rows.map (fun r => r.time)).Nodup ∧
    List.Sorted (· ≤ ·) (P.rows.map (fun r => r.time)) ∧
    (∀ t, t ∈ P.rows.map (fun r => r.time) ↔ ∃ s ∈ stas, t ∈ s.times) ∧
    (∀ k, k < stas.length → ∀ r ∈ P.rows, r.time ∉ (stas.getD k dSta).times →
        ∀ c, c < 4 → r.vals.getD (4 * k + c) none = none) := by
  cases stas with
  | nil => simp [mergedPresmooth, joinAll, Except.map] at hP
  | cons s rest =>
    simp only [mergedPresmooth, joinAll, Except.map] at hP
    obtain rfl := (Except.ok.inj hP).symm
    obtain ⟨b1, b2, b3, b4, b5⟩ := stationFrame_inv s (hnd s (List.mem_cons_self _ _))
    obtain ⟨f1, f2, f3, f4, f5⟩ := foldl_joinTwo_inv rest (stationFrame s) [s] b1 b2 b3 b4 b5
      (fun u hu => hnd u (List.mem_cons_of_mem _ hu))
    have hperm : List.Perm
        ((sortFrame (rest.foldl (fun acc t => joinTwo acc (stationFrame t))
          (stationFrame s))).rows.map (fun r => r.time))
        ((rest.foldl (fun acc t => joinTwo acc (stationFrame t))
          (stationFrame s)).rows.map (fun r => r.time)) :=
      (List.perm_insertionSort rowLe _).map _
    have hrowmem : ∀ r, r ∈ (sortFrame (rest.foldl (fun acc t => joinTwo acc (stationFrame t))
        (stationFrame s))).rows ↔
        r ∈ (rest.foldl (fun acc t => joinTwo acc (stationFrame t)) (stationFrame s)).rows :=
      fun r => (List.perm_insertionSort rowLe _).mem_iff
    refine ⟨hperm.nodup_iff.mpr f3, ?_, ?_, ?_⟩
    · have hsorted := List.sorted_insertionSort rowLe
        (rest.foldl (fun acc t => joinTwo acc (stationFrame t)) (stationFrame s)).rows
      exact List.Pairwise.map _ (fun a b hab => hab) hsorted
    · intro t
      rw [hperm.mem_iff, f4 t]
      simp
    · intro k hk r hr hout c hc
      have hk2 : k < (([s] : List Station) ++ rest).length := by
        simpa using hk
      have hout2 : r.time ∉ ((([s] : List Station) ++ rest).getD k dSta).times := by
        simpa using hout
      exact f5 k hk2 r ((hrowmem r).mp hr) hout2 c hc

/-! ### Claims -/

/-- C4 counterexample: with a 30-second station and `slide = 1`, the
rate-normalized slide is `0`, the normalized increment `300` is not
evenly divisible by it, yet `lls_detection` raises a ZeroDivisionError
at `int(increment // slide)`, not the configuration error with its fixed
message. -/
theorem lls_zero_slide_not_config_error :
    llsNormalize 600 1 30 = .ok (300, 0) ∧ 300 % 0 ≠ 0 ∧
    llsParams [30] 600 1 = .error "ZeroDivisionError" ∧
    llsParams [30] 600 1 ≠ .error "Increment / Slide not an Integer" := by
  refine ⟨rfl, by decide, rfl, ?_⟩
  intro h
  have h2 : llsParams [30] 600 1 = Except.error "ZeroDivisionError" := rfl
  rw [h2] at h
  exact absurd (Except.error.inj h) (by decide)

/-- C4 (amended): whenever the rate factor and the rate-normalized slide
are nonzero and the rate-normalized increment is not evenly divisible by
the rate-normalized slide, `lls_detection` raises the configuration
error immediately at the first such station, with the fixed message
"Increment / Slide not an Integer", whatever stations follow. -/
theorem lls_divisibility_config_error (intervals : List ℕ) (inc slide interval : ℕ)
    (hdf : rateFactor interval ≠ 0)
    (hslide : slide / rateFactor interval ≠ 0)
    (hmod : (inc / rateFactor interval) % (slide / rateFactor interval) ≠ 0) :
    llsParams (interval :: intervals) inc slide = .error "Increment / Slide not an Integer" := by
  simp only [llsParams, llsNormalize, llsCheck, bind, Except.bind, if_neg hdf, if_neg hslide,
    if_pos hmod]

theorem lls_divisibility_config_error_witness :
    rateFactor 15 ≠ 0 ∧ 17 / rateFactor 15 ≠ 0 ∧
    (600 / rateFactor 15) % (17 / rateFactor 15) ≠ 0 ∧
    llsParams [15] 600 17 = .error "Increment / Slide not an Integer" :=
  ⟨by decide, by decide, by decide,
   lls_divisibility_config_error [] 600 17 15 (by decide) (by decide) (by decide)⟩

/-- C9: the caller-supplied increment and slide are reassigned inside
the station loop, so two successive 30-second stations use
`increment // 2, slide // 2` and then `increment // 4, slide // 4`: the
second station is normalized from the already-adjusted values of the
first, not from the originally configured values. -/
theorem lls_params_carry_normalization (inc slide : ℕ)
    (h1 : slide / 2 ≠ 0) (h2 : (inc / 2) % (slide / 2) = 0)
    (h3 : slide / 4 ≠ 0) (h4 : (inc / 4) % (slide / 4) = 0) :
    llsParams [30, 30] inc slide = .ok [(inc / 2, slide / 2), (inc / 4, slide / 4)] := by
  have e1 : rateFactor 30 = 2 := rfl
  have d1 : inc / 2 / 2 = inc / 4 := by omega
  have d2 : slide / 2 / 2 = slide / 4 := by omega
  have hn1 : llsNormalize inc slide 30 = .ok (inc / 2, slide / 2) := by
    unfold llsNormalize
    rw [e1, if_neg (by decide)]
  have hc1 : llsCheck (inc / 2) (slide / 2) = .ok () := by
    unfold llsCheck
    rw [if_neg h1, if_neg (by omega)]
  have hn2 : llsNormalize (inc / 2) (slide / 2) 30 = .ok (inc / 4, slide / 4) := by
    unfold llsNormalize
    rw [e1, if_neg (by decide), d1, d2]
  have hc2 : llsCheck (inc / 4) (slide / 4) = .ok () := by
    unfold llsCheck
    rw [if_neg h3, if_neg (by omega)]
  simp only [llsParams, bind, Except.bind, hn1, hc1, hn2, hc2]

theorem lls_params_carry_normalization_witness :
    (4 : ℕ) / 2 ≠ 0 ∧ (600 : ℕ) / 2 % (4 / 2) = 0 ∧ (4 : ℕ) / 4 ≠ 0 ∧
    (600 : ℕ) / 4 % (4 / 4) = 0 ∧
    llsParams [30, 30] 600 4 = .ok [(300, 2), (150, 1)] :=
  ⟨by decide, by decide, by decide, by decide,
   lls_params_carry_normalization 600 4 (by decide) (by decide) (by decide) (by decide)⟩

/-- C2: on a series with two interpolatable 60 s gaps (interval 15 s,
max gap 120 s), `findgaps` returns a frame in which only the last gap is
filled: each `interpolate` call starts from the original `self.data` and
only the last result is kept, so the first gap keeps no inserted sample
(times 15, 30, 45 are absent) and is not recorded as an unresolved gap
either.  The claimed behavior would fill both gaps, giving nine rows. -/
theorem findgaps_keeps_only_last_gap :
    findgaps 15 120 exStream =
      { frame := exStreamFilled, starts := [0], ends := [120], gaps := [] } ∧
    exStreamFilled.times.length = 6 ∧
    ((15 : ℚ) ∉ exStreamFilled.times) ∧ ((30 : ℚ) ∉ exStreamFilled.times) ∧
    ((45 : ℚ) ∉ exStreamFilled.times) :=
  ⟨by decide!, by decide!, by decide!, by decide!, by decide!⟩

/-- C1: on a candidate event in which no station has a present first and
last x sample, `make_catalog` raises a ZeroDivisionError at
`end_avg / x_col_not_nan` instead of dropping the candidate. -/
theorem make_catalog_divzero_on_invalid_endpoints :
    candidateSlices c1F cullMask = [[⟨0, [none]⟩, ⟨3600, [none]⟩, ⟨7200, [none]⟩]] ∧
    make_catalog c1F cullMask 30 (1 / 10) = .error "ZeroDivisionError" :=
  ⟨by decide!, by decide!⟩

/-- C8: both culls of `make_catalog` are strict.  When the catalog is
returned, a candidate belongs to it exactly when its duration strictly
exceeds `cull_time` minutes and its station-averaged net x displacement
strictly exceeds `cull_dist`; in particular a candidate with duration
exactly `cull_time` minutes, or average displacement exactly
`cull_dist`, is dropped. -/
theorem make_catalog_strict_culls (F : MFrame) (mask : List Bool) (cullTime cullDist : ℚ)
    (catalog : List (List MRow)) (hok : make_catalog F mask cullTime cullDist = .ok catalog)
    (ev : List MRow) :
    (ev ∈ catalog ↔
      ev ∈ candidateSlices F mask ∧
      (∃ d, evDuration ev = some d ∧ d > cullTime * 60) ∧
      (∃ a, evAvgDisp (colIdxs F "x") ev = some a ∧ a > cullDist)) ∧
    (evDuration ev = some (cullTime * 60) → ev ∉ catalog) ∧
    (evAvgDisp (colIdxs F "x") ev = some cullDist → ev ∉ catalog) := by
  simp only [make_catalog, bind, Except.bind] at hok
  cases h1 : exceptFilter (durationKeep cullTime) (candidateSlices F mask) with
  | error e => rw [h1] at hok; cases hok
  | ok c1 =>
    rw [h1] at hok
    have hmem1 := exceptFilter_ok_mem _ _ h1 ev
    have hmem2 := exceptFilter_ok_mem _ _ hok ev
    have hdur : durationKeep cullTime ev = .ok true ↔
        ∃ d, evDuration ev = some d ∧ d > cullTime * 60 := by
      unfold durationKeep
      cases hd : evDuration ev with
      | none => simp
      | some d =>
        simp only [Except.ok.injEq, decide_eq_true_eq]
        constructor
        · intro hgt; exact ⟨d, rfl, hgt⟩
        · rintro ⟨d2, hd2, hgt⟩; cases hd2; exact hgt
    have hdist : distKeep (colIdxs F "x") cullDist ev = .ok true ↔
        ∃ a, evAvgDisp (colIdxs F "x") ev = some a ∧ a > cullDist := by
      unfold distKeep
      cases ha : evAvgDisp (colIdxs F "x") ev with
      | none => simp
      | some a =>
        simp only [Except.ok.injEq, decide_eq_true_eq]
        constructor
        · intro hgt; exact ⟨a, rfl, hgt⟩
        · rintro ⟨a2, ha2, hgt⟩; cases ha2; exact hgt
    have hiff : ev ∈ catalog ↔
        ev ∈ candidateSlices F mask ∧
        (∃ d, evDuration ev = some d ∧ d > cullTime * 60) ∧
        (∃ a, evAvgDisp (colIdxs F "x") ev = some a ∧ a > cullDist) := by
      rw [hmem2, hmem1, hdist, hdur, and_assoc]
    refine ⟨hiff, ?_, ?_⟩
    · intro hd hmem
      obtain ⟨-, ⟨d, hd2, hgt⟩, -⟩ := hiff.mp hmem
      rw [hd] at hd2
      cases hd2
      exact lt_irrefl _ hgt
    · intro ha hmem
      obtain ⟨-, -, ⟨a, ha2, hgt⟩⟩ := hiff.mp hmem
      rw [ha] at ha2
      cases ha2
      exact lt_irrefl _ hgt

theorem make_catalog_strict_culls_witness :
    make_catalog c8F cullMask 30 (1 / 10) = .ok [c8ev] ∧
    (c8ev ∈ [c8ev] ↔
      c8ev ∈ candidateSlices c8F cullMask ∧
      (∃ d, evDuration c8ev = some d ∧ d > 30 * 60) ∧
      (∃ a, evAvgDisp (colIdxs c8F "x") c8ev = some a ∧ a > 1 / 10)) :=
  ⟨by decide!,
   (make_catalog_strict_culls c8F cullMask 30 (1 / 10) [c8ev] (by decide!) c8ev).1⟩

/-- C5: a row is classified raw active by `pick_events` exactly when the
NaN-aware sum of the residual columns strictly exceeds the NaN-aware sum
of the residual-baseline columns and the number of stations with a
present x value at that row is at least `active_stas`. -/
theorem raw_active_iff_spec (F : MFrame) (activeStas : ℤ) (i : ℕ) :
    rawActive F activeStas i = true ↔
      (specNanSum F (colIdxs F "res") i > specNanSum F (colIdxs F "res_avg") i ∧
       (specPresentCount F (colIdxs F "x") i : ℤ) ≥ activeStas) := by
  have hsum : ∀ idxs : List ℕ, nansumIdxs F idxs i = specNanSum F idxs i := by
    intro idxs
    unfold nansumIdxs specNanSum
    rw [← sum_getD_eq_sum_filterMap, List.map_map]
    rfl
  have hcount : nanCountIdxs F (colIdxs F "x") i + specPresentCount F (colIdxs F "x") i =
      (colIdxs F "x").length := by
    unfold nanCountIdxs specPresentCount
    have h := countP_not_add_countP
      (fun j => ((rowVals F i).getD j none).isSome) (colIdxs F "x")
    have hnot : (fun j => !((rowVals F i).getD j none).isSome) =
        (fun j => ((rowVals F i).getD j none).isNone) := by
      funext j
      cases (rowVals F i).getD j none <;> rfl
    rw [← hnot]
    exact h
  unfold rawActive
  rw [Bool.and_eq_true, decide_eq_true_eq, decide_eq_true_eq, hsum, hsum]
  constructor
  · rintro ⟨hgt, hlt⟩
    exact ⟨hgt, by omega⟩
  · rintro ⟨hgt, hge⟩
    exact ⟨hgt, by omega⟩

/-- C10: `make_catalog` opens candidates only at rising edges: an index
is a start index exactly when it is at least 1, in range, with the mask
inactive just before it and active at it; consequently, when the mask is
active at row 0, every candidate slice starts strictly after the leading
active region. -/
theorem make_catalog_opens_only_rising (mask : List Bool) :
    (∀ s, s ∈ startIndices mask ↔
        1 ≤ s ∧ s < mask.length ∧ mask.getD (s - 1) false = false ∧
        mask.getD s false = true) ∧
    (mask.getD 0 false = true →
      ∀ p ∈ (startIndices mask).zip (endIndices mask),
        (mask.takeWhile id).length < p.1) ∧
    (∀ F : MFrame, mask.getD 0 false = true →
      ∀ ev ∈ candidateSlices F mask, ∃ p,
        p ∈ (startIndices mask).zip (endIndices mask) ∧
        ev = (F.rows.take p.2).drop p.1 ∧ (mask.takeWhile id).length < p.1) := by
  have hchar : ∀ s, s ∈ startIndices mask ↔
      1 ≤ s ∧ s < mask.length ∧ mask.getD (s - 1) false = false ∧
      mask.getD s false = true := by
    intro s
    unfold startIndices
    rw [List.mem_filter, List.mem_range]
    simp only [Bool.and_eq_true, decide_eq_true_eq, Bool.not_eq_true']
    tauto
  have hlead : mask.getD 0 false = true →
      ∀ p ∈ (startIndices mask).zip (endIndices mask),
        (mask.takeWhile id).length < p.1 := by
    intro h0 p hp
    obtain ⟨s, e⟩ := p
    have hs := (List.of_mem_zip hp).1
    obtain ⟨hs1, hslen, hsp, hsa⟩ := (hchar s).mp hs
    by_contra hle
    push_neg at hle
    have hlt : s - 1 < (mask.takeWhile id).length := by omega
    have := takeWhile_getD_true mask (s - 1) hlt
    rw [hsp] at this
    cases this
  refine ⟨hchar, hlead, ?_⟩
  intro F h0 ev hev
  unfold candidateSlices at hev
  obtain ⟨p, hp, hpe⟩ := List.mem_map.mp hev
  exact ⟨p, hp, hpe.symm, hlead h0 p hp⟩

theorem make_catalog_opens_only_rising_witness :
    ([true, true, false, true, false].getD 0 false = true) ∧
    (∀ p ∈ (startIndices [true, true, false, true, false]).zip
        (endIndices [true, true, false, true, false]),
      (([true, true, false, true, false] : List Bool).takeWhile id).length < p.1) :=
  ⟨rfl, (make_catalog_opens_only_rising [true, true, false, true, false]).2.1 rfl⟩

/-- C6 counterexample: with one hour of padding and a single raw-active
row at index 2 of a five-row timeline, row 0 is inside the padding
distance and inside the timeline bounds, yet the padded mask produced by
`pick_events` is inactive there: the write guard `i - j > 0` never pads
row 0, so padding is not clipped to the timeline bounds on the left. -/
theorem pick_events_left_boundary_not_clipped :
    rawMask c6F 1 = [false, false, true, false, false] ∧
    pick_events c6F 1 1 = [false, true, true, true, true] ∧
    (pick_events c6F 1 1).getD 0 false = false :=
  ⟨by decide!, by decide!, by decide!⟩

/-- C6 (amended): when the raw mask is active at exactly one row `i0`
with a full padding margin on both sides (`indices <= i0` and
`i0 + indices <= n`, `indices = hr_off*3600/15`), the padded mask of
`pick_events` is active exactly on the rows of
`[i0 - (indices-1), i0 + (indices-1)]`, which are
`2*floor(hr_off*3600/15) - 1` contiguous rows centered on `i0`; the
padding is computed from the frozen raw mask, so the active region is
determined by the raw-active row alone.  (At the boundaries the region
is smaller; on the left it reaches only row 1, never row 0.) -/
theorem pick_events_padding (F : MFrame) (activeStas : ℤ) (hrOff i0 : ℕ)
    (hi0 : i0 < F.rows.length)
    (hone : ∀ k, k < F.rows.length → ((rawMask F activeStas).getD k false = true ↔ k = i0))
    (hhr : 1 ≤ hrOff)
    (hleft : hrOff * 3600 / 15 ≤ i0)
    (hright : i0 + hrOff * 3600 / 15 ≤ F.rows.length) :
    (∀ k, k < F.rows.length →
      ((pick_events F activeStas hrOff).getD k false = true ↔
        i0 - (hrOff * 3600 / 15 - 1) ≤ k ∧ k ≤ i0 + (hrOff * 3600 / 15 - 1))) ∧
    ((Finset.range F.rows.length).filter
        (fun k => (pick_events F activeStas hrOff).getD k false = true)).card =
      2 * (hrOff * 3600 / 15) - 1 := by
  have hind1 : 1 ≤ hrOff * 3600 / 15 := by omega
  have hlen : (rawMask F activeStas).length = F.rows.length := by
    unfold rawMask
    simp
  have hchar : ∀ k, k < F.rows.length →
      ((pick_events F activeStas hrOff).getD k false = true ↔
        i0 - (hrOff * 3600 / 15 - 1) ≤ k ∧ k ≤ i0 + (hrOff * 3600 / 15 - 1)) := by
    intro k hk
    unfold pick_events
    rw [padEvent_getD]
    simp only [hlen]
    constructor
    · rintro (hraw | ⟨i, hi, hact, hw, hklen⟩)
      · have := (hone k hk).mp hraw
        omega
      · have hii : i = i0 := (hone i hi).mp hact
        rw [hii] at hw
        rcases (mem_padWrites _ _ i0 k).mp hw with ⟨j, hj1, hj2, (⟨rfl, hjl⟩ | ⟨rfl, hji⟩)⟩
        · omega
        · omega
    · intro hbounds
      rcases eq_or_ne k i0 with rfl | hne
      · exact Or.inl ((hone k hk).mpr rfl)
      · refine Or.inr ⟨i0, hi0, (hone i0 hi0).mpr rfl, ?_, hk⟩
        rw [mem_padWrites]
        rcases lt_or_gt_of_ne hne with hlt | hgt
        · exact ⟨i0 - k, by omega, by omega, Or.inr ⟨by omega, by omega⟩⟩
        · exact ⟨k - i0, by omega, by omega, Or.inl ⟨by omega, by omega⟩⟩
  refine ⟨hchar, ?_⟩
  have hset : (Finset.range F.rows.length).filter
      (fun k => (pick_events F activeStas hrOff).getD k false = true) =
      Finset.Icc (i0 - (hrOff * 3600 / 15 - 1)) (i0 + (hrOff * 3600 / 15 - 1)) := by
    ext k
    simp only [Finset.mem_filter, Finset.mem_range, Finset.mem_Icc]
    constructor
    · rintro ⟨hk, hp⟩
      exact (hchar k hk).mp hp
    · intro hb
      have hk : k < F.rows.length := by omega
      exact ⟨hk, (hchar k hk).mpr hb⟩
  rw [hset, Nat.card_Icc]
  omega

theorem pick_events_padding_witness :
    (240 < c6W.rows.length) ∧
    (∀ k, k < c6W.rows.length → ((rawMask c6W 1).getD k false = true ↔ k = 240)) ∧
    ((1 : ℕ) ≤ 1) ∧ (1 * 3600 / 15 ≤ 240) ∧ (240 + 1 * 3600 / 15 ≤ c6W.rows.length) ∧
    ((∀ k, k < c6W.rows.length →
        ((pick_events c6W 1 1).getD k false = true ↔
          240 - (1 * 3600 / 15 - 1) ≤ k ∧ k ≤ 240 + (1 * 3600 / 15 - 1))) ∧
      ((Finset.range c6W.rows.length).filter
          (fun k => (pick_events c6W 1 1).getD k false = true)).card =
        2 * (1 * 3600 / 15) - 1) :=
  ⟨by decide!, by decide!, by decide, by decide, by decide!,
   pick_events_padding c6W 1 1 240 (by decide!) (by decide!) (by decide) (by decide)
     (by decide!)⟩

theorem except_bind_ok {α β : Type} (a : α) (f : α → Except String β) :
    Except.bind (.ok a) f = f a := rfl

theorem setColumn_names (F : MFrame) (j : ℕ) (c : List (Option ℚ)) :
    (setColumn F j c).names = F.names := rfl

/-- C3 counterexample: in `merge [exLa09, exLa05]` the lower-rate
station la09 is present and its residual column has a single isolated
missing row at t = 15 with present neighbors (a one-sample join
artifact), yet no limit-1 interpolation is applied to it — the guard
tests for la00, which is absent — so the artifact stays missing, while
applying the interpolation would have changed the column. -/
theorem merge_no_smoothing_without_la00 :
    merge [exLa09, exLa05] = .ok c3M ∧
    c3M.names.getD 2 "" = "la09res" ∧
    (getColumn c3M 2).getD 0 none = some 1 ∧
    (getColumn c3M 2).getD 1 none = none ∧
    (getColumn c3M 2).getD 2 none = some 2 ∧
    interp1 (getColumn c3M 2) ≠ getColumn c3M 2 :=
  ⟨by decide!, by decide!, by decide!, by decide!, by decide!, by decide!⟩

/-- C3 (amended): the single-step smoothing in `Picks.merge` is guarded
by the presence of station la00 (column `la00res`), not by the presence
of the smoothed station la09.  When `la00res` is among the merged
columns and the merge returns, the la09 res, res_avg and x columns
equal the limit-1 linear interpolation of their pre-smoothing values;
that interpolation changes only missing entries whose immediate
predecessor is present — single isolated missing rows and the first row
of longer gaps, never a deeper row of a genuine gap — and fills an
isolated missing row with the midpoint of its neighbors. -/
theorem merge_smoothing_guarded_by_la00 (stas : List Station) (P M : MFrame)
    (hP : mergedPresmooth stas = .ok P)
    (hla00 : "la00res" ∈ P.names)
    (hM : merge stas = .ok M) :
    (∀ cn ∈ (["la09res", "la09res_avg", "la09x"] : List String), ∃ j,
        P.names.findIdx? (fun n => n = cn) = some j ∧
        getColumn M j = interp1 (getColumn P j)) ∧
    (∀ (l : List (Option ℚ)) (i : ℕ),
        (interp1 l).getD i none ≠ l.getD i none →
        l.getD i none = none ∧ 1 ≤ i ∧ l.getD (i - 1) none ≠ none ∧ i < l.length) ∧
    (∀ (l : List (Option ℚ)) (i : ℕ) (a b : ℚ), 1 ≤ i → i + 1 < l.length →
        l.getD i none = none → l.getD (i - 1) none = some a → l.getD (i + 1) none = some b →
        (interp1 l).getD i none = some (a + (b - a) / 2)) := by
  have hwf := mergedPresmooth_wf stas P hP
  have hMA : applySmoothing P = .ok M := by
    unfold merge at hM
    rw [hP] at hM
    simpa [bind, Except.bind] using hM
  unfold applySmoothing at hMA
  rw [if_pos hla00] at hMA
  simp only [bind, Except.bind] at hMA
  cases h1 : P.names.findIdx? (fun n => n = "la09res") with
  | none =>
    have hk : interpColumn P "la09res" = .error "KeyError" := by
      unfold interpColumn
      rw [h1]
    rw [hk] at hMA
    cases hMA
  | some j1 =>
    have hi1 : interpColumn P "la09res" =
        .ok (setColumn P j1 (interp1 (getColumn P j1))) := by
      unfold interpColumn
      rw [h1]
    simp only [hi1] at hMA
    cases h2 : P.names.findIdx? (fun n => n = "la09res_avg") with
    | none =>
      have hk : interpColumn (setColumn P j1 (interp1 (getColumn P j1))) "la09res_avg" =
          .error "KeyError" := by
        unfold interpColumn
        rw [setColumn_names, h2]
      rw [hk] at hMA
      cases hMA
    | some j2 =>
      have hi2 : interpColumn (setColumn P j1 (interp1 (getColumn P j1))) "la09res_avg" =
          .ok (setColumn (setColumn P j1 (interp1 (getColumn P j1))) j2
            (interp1 (getColumn (setColumn P j1 (interp1 (getColumn P j1))) j2))) := by
        unfold interpColumn
        rw [setColumn_names, h2]
      simp only [hi2] at hMA
      cases h3 : P.names.findIdx? (fun n => n = "la09x") with
      | none =>
        have hk : interpColumn (setColumn (setColumn P j1 (interp1 (getColumn P j1))) j2
            (interp1 (getColumn (setColumn P j1 (interp1 (getColumn P j1))) j2))) "la09x" =
            .error "KeyError" := by
          unfold interpColumn
          rw [setColumn_names, setColumn_names, h3]
        rw [hk] at hMA
        cases hMA
      | some j3 =>
        set F1 := setColumn P j1 (interp1 (getColumn P j1)) with hF1
        set F2 := setColumn F1 j2 (interp1 (getColumn F1 j2)) with hF2
        have hi3 : interpColumn F2 "la09x" =
            .ok (setColumn F2 j3 (interp1 (getColumn F2 j3))) := by
          unfold interpColumn
          rw [hF2, hF1, setColumn_names, setColumn_names, h3]
        rw [hi3] at hMA
        obtain rfl : setColumn F2 j3 (interp1 (getColumn F2 j3)) = M := Except.ok.inj hMA
        obtain ⟨hj1lt, hp1, -⟩ := List.findIdx?_eq_some_iff_getElem.mp h1
        obtain ⟨hj2lt, hp2, -⟩ := List.findIdx?_eq_some_iff_getElem.mp h2
        obtain ⟨hj3lt, hp3, -⟩ := List.findIdx?_eq_some_iff_getElem.mp h3
        have hn1 : P.names[j1] = "la09res" := of_decide_eq_true hp1
        have hn2 : P.names[j2] = "la09res_avg" := of_decide_eq_true hp2
        have hn3 : P.names[j3] = "la09x" := of_decide_eq_true hp3
        have hg1 : P.names.getD j1 "" = "la09res" := by
          rw [List.getD_eq_getElem?_getD, List.getElem?_eq_getElem hj1lt]
          exact hn1
        have hg2 : P.names.getD j2 "" = "la09res_avg" := by
          rw [List.getD_eq_getElem?_getD, List.getElem?_eq_getElem hj2lt]
          exact hn2
        have hg3 : P.names.getD j3 "" = "la09x" := by
          rw [List.getD_eq_getElem?_getD, List.getElem?_eq_getElem hj3lt]
          exact hn3
        have hne12 : j1 ≠ j2 := by
          intro h
          rw [h, hg2] at hg1
          exact absurd hg1 (by decide)
        have hne13 : j1 ≠ j3 := by
          intro h
          rw [h, hg3] at hg1
          exact absurd hg1 (by decide)
        have hne23 : j2 ≠ j3 := by
          intro h
          rw [h, hg3] at hg2
          exact absurd hg2 (by decide)
        have hwfP1 : ∀ r ∈ P.rows, j1 < r.vals.length := by
          intro r hr
          rw [hwf r hr]
          exact hj1lt
        have hwfF1 : ∀ r ∈ F1.rows, r.vals.length = P.names.length :=
          setColumn_vals_length P j1 _ hwf
        have hwfF12 : ∀ r ∈ F1.rows, j2 < r.vals.length := by
          intro r hr
          rw [hwfF1 r hr]
          exact hj2lt
        have hwfF2 : ∀ r ∈ F2.rows, r.vals.length = P.names.length :=
          setColumn_vals_length F1 j2 _ hwfF1
        have hwfF23 : ∀ r ∈ F2.rows, j3 < r.vals.length := by
          intro r hr
          rw [hwfF2 r hr]
          exact hj3lt
        have hlen1 : (interp1 (getColumn P j1)).length = P.rows.length := by
          rw [interp1_length, getColumn_length]
        have hlen2 : (interp1 (getColumn F1 j2)).length = F1.rows.length := by
          rw [interp1_length, getColumn_length]
        have hlen3 : (interp1 (getColumn F2 j3)).length = F2.rows.length := by
          rw [interp1_length, getColumn_length]
        refine ⟨?_, interp1_changed_only_first_of_run, interp1_isolated_fill⟩
        intro cn hcn
        simp only [List.mem_cons, List.not_mem_nil, or_false] at hcn
        rcases hcn with rfl | rfl | rfl
        · refine ⟨j1, h1, ?_⟩
          rw [getColumn_setColumn_ne F2 j1 j3 _ hne13.symm,
            hF2, getColumn_setColumn_ne F1 j1 j2 _ hne12.symm,
            hF1, getColumn_setColumn_self P j1 _ hlen1 hwfP1]
        · refine ⟨j2, h2, ?_⟩
          rw [getColumn_setColumn_ne F2 j2 j3 _ hne23.symm,
            hF2, getColumn_setColumn_self F1 j2 _ hlen2 hwfF12,
            hF1, getColumn_setColumn_ne P j2 j1 _ hne12]
        · refine ⟨j3, h3, ?_⟩
          rw [getColumn_setColumn_self F2 j3 _ hlen3 hwfF23,
            hF2, getColumn_setColumn_ne F1 j3 j2 _ hne23,
            hF1, getColumn_setColumn_ne P j3 j1 _ hne13]

theorem merge_smoothing_guarded_by_la00_witness :
    (mergedPresmooth [exLa00, exLa09] = .ok c7P) ∧
    ("la00res" ∈ c7P.names) ∧
    (merge [exLa00, exLa09] = .ok c7M) ∧
    ((∀ cn ∈ (["la09res", "la09res_avg", "la09x"] : List String), ∃ j,
        c7P.names.findIdx? (fun n => n = cn) = some j ∧
        getColumn c7M j = interp1 (getColumn c7P j)) ∧
      (∀ (l : List (Option ℚ)) (i : ℕ),
        (interp1 l).getD i none ≠ l.getD i none →
        l.getD i none = none ∧ 1 ≤ i ∧ l.getD (i - 1) none ≠ none ∧ i < l.length) ∧
      (∀ (l : List (Option ℚ)) (i : ℕ) (a b : ℚ), 1 ≤ i → i + 1 < l.length →
        l.getD i none = none → l.getD (i - 1) none = some a → l.getD (i + 1) none = some b →
        (interp1 l).getD i none = some (a + (b - a) / 2))) :=
  ⟨by decide!, by decide, by decide!,
   merge_smoothing_guarded_by_la00 [exLa00, exLa09] c7P c7M (by decide!) (by decide)
     (by decide!)⟩

/-- C7 counterexample: merging la00 with la09 triggers the la00-guarded
smoothing, which fills la09 columns at t = 15 — a timestamp at which
la09 has no sample — so the merged table does not keep the missing
marker at every timestamp outside a station's runs. -/
theorem merge_fills_outside_la09_runs :
    exLa00.times.Nodup ∧ exLa09.times.Nodup ∧
    merge [exLa00, exLa09] = .ok c7M ∧
    ((15 : ℚ) ∉ exLa09.times) ∧
    (c7M.rows.getD 1 dRow).time = 15 ∧
    c7M.names.getD 4 "" = "la09x" ∧
    (c7M.rows.getD 1 dRow).vals.getD 4 none = some 6 :=
  ⟨by decide!, by decide!, by decide!, by decide!, by decide!, by decide!, by decide!⟩

/-- C7 (amended): for stations none of which carries two samples with
the same timestamp, when `Picks.merge` returns, the merged table has
exactly one row per distinct timestamp across all stations — its
timestamp list has no duplicates, is sorted ascending, and contains
exactly the union of the stations' timestamps — and, provided the
la00-guarded smoothing is not triggered (no column `la00res` in the
merge), at every timestamp at which a station has no sample that
station's four columns hold the missing marker, not zero.  (When la00
is present, the limit-1 smoothing can fill single missing la09 entries,
as the counterexample shows.) -/
theorem merge_unique_sorted_missing (stas : List Station) (M : MFrame)
    (hnd : ∀ s ∈ stas, s.times.Nodup)
    (hok : merge stas = .ok M) :
    (M.rows.map (fun r => r.time)).Nodup ∧
    List.Sorted (· ≤ ·) (M.rows.map (fun r => r.time)) ∧
    (∀ t, t ∈ M.rows.map (fun r => r.time) ↔ ∃ s ∈ stas, t ∈ s.times) ∧
    ("la00res" ∉ M.names →
      ∀ k, k < stas.length → ∀ r ∈ M.rows, r.time ∉ (stas.getD k dSta).times →
        ∀ c, c < 4 → r.vals.getD (4 * k + c) none = none) := by
  unfold merge at hok
  cases hP : mergedPresmooth stas with
  | error e => rw [hP] at hok; cases hok
  | ok P =>
    rw [hP] at hok
    replace hok : applySmoothing P = .ok M := hok
    obtain ⟨hMn, hMt⟩ := applySmoothing_names_times P M hok
    obtain ⟨p1, p2, p3, p4⟩ := mergedPresmooth_inv stas P hnd hP
    refine ⟨by rw [hMt]; exact p1, by rw [hMt]; exact p2, fun t => by rw [hMt]; exact p3 t, ?_⟩
    intro hnotM k hk r hr hout c hc
    have hnotP : "la00res" ∉ P.names := by
      rw [← hMn]
      exact hnotM
    have hMP : M = P := by
      have hid := applySmoothing_id_of_not_mem P hnotP
      rw [hid] at hok
      exact (Except.ok.inj hok).symm
    rw [hMP] at hr
    exact p4 k hk r hr hout c hc

theorem merge_unique_sorted_missing_witness :
    (∀ s ∈ [exLa09, exLa05], s.times.Nodup) ∧
    (merge [exLa09, exLa05] = .ok c3M) ∧
    ((c3M.rows.map (fun r => r.time)).Nodup ∧
      List.Sorted (· ≤ ·) (c3M.rows.map (fun r => r.time)) ∧
      (∀ t, t ∈ c3M.rows.map (fun r => r.time) ↔ ∃ s ∈ [exLa09, exLa05], t ∈ s.times) ∧
      ("la00res" ∉ c3M.names →
        ∀ k, k < ([exLa09, exLa05] : List Station).length → ∀ r ∈ c3M.rows,
          r.time ∉ (([exLa09, exLa05] : List Station).getD k dSta).times →
          ∀ c, c < 4 → r.vals.getD (4 * k + c) none = none)) :=
  ⟨by decide!, by decide!,
   merge_unique_sorted_missing [exLa09, exLa05] c3M (by decide!) (by decide!)⟩

end Whillans
